import Mathlib

/-!
Shallow embedding of `invenio_oaiserver/percolator.py` (percolation-based
OAI set matching).  Pure helpers become Lean functions; the mutable state
touched by the module — the search engine's indices and percolator
documents, the `OAISet` table and the process-wide sets cache — is passed
explicitly as a `St` value, and exception propagation is modelled with
`Except String`.  External collaborators (the search client's matching
semantics, `invenio_search`'s index-name builder, the record indexer,
`schema_to_index`, the record sets fetcher) are abstracted into a read-only
`Config` record of functions.
-/

namespace InvenioOAIServer

/-- Records and serialized documents submitted for percolation are opaque
JSON payloads; we abstract them as strings (their content only ever flows
into the abstract match oracle of `Config`). -/
abbrev Doc := String

/-- An engine-native query object, as produced by the query translator;
we record the search pattern it carries (`to_dict` is absorbed). -/
structure Query where
  qs : Option String
deriving DecidableEq, Repr

/-- A row of the `OAISet` table: a set name (`spec`) and an optional
search pattern (`search_pattern`, a nullable string column). -/
structure OAISet where
  spec : String
  search_pattern : Option String
deriving DecidableEq, Repr

/-- A document stored in the search engine: (index name, document id,
stored percolator query body). -/
abbrev DocEntry := String × String × Query

/-- The search engine's state as seen by the module: which indices exist
(ES7 side indices), which content indices have received the percolator
`put_mapping` (ES5/6), and the stored percolator documents. -/
structure ES where
  indices : List String
  percMapped : List String
  docs : List DocEntry
deriving DecidableEq, Repr

/-- Process state threaded through the stateful operations: the engine
state, the authoritative `OAISet` table, and `current_oaiserver.sets`
(the static-sets cache, `None` when unbuilt). -/
structure St where
  es : ES
  db : List OAISet
  cache : Option (List String)
deriving DecidableEq, Repr

/-- Read-only environment: the ES major version, `current_search.mappings`
(index name to mapping path, a finite dict), and the abstracted external
collaborators.  `docMatches q d` is the engine's oracle deciding whether the
stored query `q` matches document `d`; `storedMatches idx id q` decides a
percolate clause referencing an already indexed document. -/
structure Config where
  esVersion : Nat
  mappings : List (String × String)
  schemaDocType : String → String
  docMatches : Query → Doc → Bool
  storedMatches : String → String → Query → Bool
  record_sets_fetcher : Doc → List String
  recordToIndex : Doc → String × String
  recordDumps : Doc → Doc

/-- Modelled from the spec: `build_index_name` of `invenio_search` (not
under `src/`) derives the percolator index name as the content-index name
plus a fixed suffix (spec sections 4.2 and 6). -/
def build_index_name (index suffix : String) : String := index ++ suffix

/-- Translation of `_build_percolator_index_name`: suffix `"-percolators"`,
replaced by the empty suffix for ES versions before 7. -/
def _build_percolator_index_name (cfg : Config) (index : String) : String :=
  build_index_name index (if cfg.esVersion < 7 then "" else "-percolators")

/-- Python dict access `current_search.mappings[index]`: `KeyError` when
the index is not registered. -/
def lookupMapping (cfg : Config) (index : String) : Except String String :=
  match cfg.mappings.find? (fun e => e.1 == index) with
  | some e => .ok e.2
  | none => .error ("KeyError: " ++ index)

/-- Translation of `_get_percolator_doc_type`.  For other ES versions the
Python function implicitly returns `None`; the returned value is only ever
passed along to client calls whose modelled effect ignores it, so that
case is rendered as the empty string. -/
def _get_percolator_doc_type (cfg : Config) (index : String) : Except String String :=
  if cfg.esVersion = 2 then .ok ".percolator"
  else if cfg.esVersion = 5 then .ok "percolators"
  else if cfg.esVersion = 6 ∨ cfg.esVersion = 7 then
    match lookupMapping cfg index with
    | .error e => .error e
    | .ok mapping_path => .ok (cfg.schemaDocType mapping_path)
  else .ok ""

/-- List insertion used to model an idempotent `put_mapping`: recording
that a content index carries the percolator field mapping. -/
def insertIfAbsent (x : String) (l : List String) : List String :=
  if x ∈ l then l else x :: l

/-- Translation of `_create_percolator_mapping index doc_type mapping_path`.
ES5/6: unconditional `put_mapping` of `PERCOLATOR_MAPPING` on the content
index (recorded in `percMapped`).  ES7: resolve the mapping path (Python
reads `current_search.mappings[index]` — a possible `KeyError` — whenever
`mapping_path` is falsy, before the existence check), then create the
percolator index only if it does not already exist; the created body
(content mapping file plus the percolator field) is abstracted to the bare
existence of the index.  Other versions: no effect. -/
def _create_percolator_mapping (cfg : Config) (index doc_type : String)
    (mapping_path : Option String) (es : ES) : Except String ES :=
  let percolator_index := _build_percolator_index_name cfg index
  if cfg.esVersion = 5 ∨ cfg.esVersion = 6 then
    .ok { es with percMapped := insertIfAbsent index es.percMapped }
  else if cfg.esVersion = 7 then
    let resolved : Except String String :=
      match mapping_path with
      | none => lookupMapping cfg index
      | some p => if p = "" then lookupMapping cfg index else .ok p
    match resolved with
    | .error e => .error e
    | .ok _ =>
      if percolator_index ∈ es.indices then .ok es
      else .ok { es with indices := percolator_index :: es.indices }
  else .ok es

/-- Modelled from the spec: `query_string_parser` of
`invenio_oaiserver.query` (not under `src/`) is the Query Translator of
spec section 4.1, converting the textual search pattern into an
engine-native query object; the translated object is represented by the
pattern it carries. -/
def query_string_parse (search_pattern : Option String) : Query :=
  ⟨search_pattern⟩

/-- Python truthiness of an optional string (`None` and `""` are falsy). -/
def pyTruthy : Option String → Bool
  | none => false
  | some s => s ≠ ""

/-- Create-or-replace of a document keyed by (index, id), the semantics of
`current_search_client.index(...)`. -/
def upsertDoc (index id : String) (q : Query) : List DocEntry → List DocEntry
  | [] => [(index, id, q)]
  | e :: rest =>
    if e.1 = index ∧ e.2.1 = id then (index, id, q) :: rest
    else e :: upsertDoc index id q rest

/-- Document lookup by (index, id) in a document list. -/
def docLookupL (docs : List DocEntry) (index id : String) : Option Query :=
  (docs.find? (fun e => e.1 == index && e.2.1 == id)).map (fun e => e.2.2)

/-- Document lookup by (index, id) in the engine state. -/
def docLookup (es : ES) (index id : String) : Option Query :=
  docLookupL es.docs index id

/-- `current_search_client.delete(...)`: removes the document at
(index, id); a missing document is a 404 error unless `ignore404`
(`ignore=[404]`) is set. -/
def esDeleteDoc (es : ES) (index id : String) (ignore404 : Bool) : Except String ES :=
  if es.docs.any (fun e => e.1 == index && e.2.1 == id) then
    .ok { es with docs := es.docs.filter (fun e => !(e.1 == index && e.2.1 == id)) }
  else if ignore404 then .ok es
  else .error "404 not found"

/-- One iteration of the loop of `_new_percolator` for a single
(index, mapping_path) entry of `current_search.mappings`. -/
def newPercolatorStep (cfg : Config) (spec : String) (query : Query)
    (es : ES) (im : String × String) : Except String ES :=
  match _get_percolator_doc_type cfg im.1 with
  | .error e => .error e
  | .ok percolator_doc_type =>
    match _create_percolator_mapping cfg im.1 percolator_doc_type (some im.2) es with
    | .error e => .error e
    | .ok es2 =>
      let docs2 := upsertDoc (_build_percolator_index_name cfg im.1)
        ("oaiset-" ++ spec) query es2.docs
      .ok { es2 with docs := docs2 }

/-- Exception-propagating fold, the translation of a Python `for` loop
whose body may raise. -/
def foldE (f : ES → α → Except String ES) : List α → ES → Except String ES
  | [], es => .ok es
  | x :: xs, es =>
    match f es x with
    | .error e => .error e
    | .ok es2 => foldE f xs es2

/-- Translation of `_new_percolator(spec, search_pattern)`: a no-op unless
both `spec` and `search_pattern` are truthy; otherwise, for every entry of
`current_search.mappings`, ensure the percolator mapping and index the
translated query under id `"oaiset-" + spec`. -/
def _new_percolator (cfg : Config) (spec : String) (search_pattern : Option String)
    (st : St) : Except String St :=
  if spec ≠ "" ∧ pyTruthy search_pattern then
    let query := query_string_parse search_pattern
    match foldE (newPercolatorStep cfg spec query) cfg.mappings st.es with
    | .error e => .error e
    | .ok es => .ok { st with es := es }
  else .ok st

/-- One iteration of the loop of `_delete_percolator` for a single index
of `current_search.mappings.keys()`. -/
def deletePercolatorStep (cfg : Config) (spec : String)
    (es : ES) (index : String) : Except String ES :=
  match _get_percolator_doc_type cfg index with
  | .error e => .error e
  | .ok percolator_doc_type =>
    match _create_percolator_mapping cfg index percolator_doc_type none es with
    | .error e => .error e
    | .ok es2 =>
      esDeleteDoc es2 (_build_percolator_index_name cfg index) ("oaiset-" ++ spec) true

/-- Translation of `_delete_percolator(spec, search_pattern)`: a no-op for
a falsy `spec`; otherwise, for every index of `current_search.mappings`,
ensure the percolator mapping and delete the document at id
`"oaiset-" + spec` with 404s ignored.  (`search_pattern` is accepted and
unused, as in the source.) -/
def _delete_percolator (cfg : Config) (spec : String) (search_pattern : Option String)
    (st : St) : Except String St :=
  if spec ≠ "" then
    match foldE (deletePercolatorStep cfg spec) (cfg.mappings.map (fun e => e.1)) st.es with
    | .error e => .error e
    | .ok es => .ok { st with es := es }
  else .ok st

/-- Translation of `_build_cache`: return `current_oaiserver.sets` if it
is not `None`, otherwise compute the specs of all `OAISet` rows whose
`search_pattern` IS NULL, memoize and return them. -/
def _build_cache (st : St) : List String × St :=
  match st.cache with
  | some sets => (sets, st)
  | none =>
    let sets := (st.db.filter (fun s => s.search_pattern.isNone)).map (fun s => s.spec)
    (sets, { st with cache := some sets })

/-- Translation of `_percolate_query`: both the ES2/5 `percolate` API and
the ES6/7 percolate-query search return the ids of the stored queries in
the percolator index that match the submitted document (engine paging is
not modelled here; the caller passes no explicit size).  For other ES
versions the Python function returns `None` and the caller's iteration
over it raises. -/
def _percolate_query (cfg : Config) (es : ES) (index doc_type percolator_doc_type : String)
    (document : Doc) : Except String (List String) :=
  let pindex := _build_percolator_index_name cfg index
  if cfg.esVersion = 2 ∨ cfg.esVersion = 5 then
    .ok ((es.docs.filter (fun e => e.1 == pindex && cfg.docMatches e.2.2 document)).map
      (fun e => e.2.1))
  else if cfg.esVersion = 6 ∨ cfg.esVersion = 7 then
    .ok ((es.docs.filter (fun e => e.1 == pindex && cfg.docMatches e.2.2 document)).map
      (fun e => e.2.1))
  else .error "TypeError: NoneType is not iterable"

/-- Python `str.startswith` on the character sequence. -/
def leadsWith : List Char → List Char → Bool
  | [], _ => true
  | _ :: _, [] => false
  | p :: ps, c :: cs => p == c && leadsWith ps cs

/-- Python `s.startswith(pre)`. -/
def pyStartsWith (s pre : String) : Bool := leadsWith pre.data s.data

/-- Python slicing `s[n:]` on the character sequence. -/
def pySliceFrom (s : String) (n : Nat) : String := ⟨s.data.drop n⟩

/-- The percolate-hit post-processing of `get_record_sets`: keep the ids
with the `"oaiset-"` prefix and strip `prefix_len = len("oaiset-")`
characters from each. -/
def stripMatches (results : List String) : List String :=
  (results.filter (fun s => pyStartsWith s "oaiset-")).map
    (fun s => pySliceFrom s "oaiset-".length)

/-- The static-set step of `get_record_sets`: the cached pattern-free
specs that occur among the record's already assigned sets. -/
def staticMatches (cache record_sets : List String) : List String :=
  cache.filter (fun spec => record_sets.contains spec)

/-- Translation of `get_record_sets(record)` with the generator's yields
collected in order: first the static matches, then the percolator matches
with the `"oaiset-"` prefix stripped. -/
def get_record_sets (cfg : Config) (record : Doc) (st : St) :
    Except String (List String × St) :=
  let record_sets := cfg.record_sets_fetcher record
  let built := _build_cache st
  let staticPart := staticMatches built.1 record_sets
  let st1 := built.2
  let indexDocType := cfg.recordToIndex record
  let document := cfg.recordDumps record
  match _get_percolator_doc_type cfg indexDocType.1 with
  | .error e => .error e
  | .ok percolator_doc_type =>
    match _create_percolator_mapping cfg indexDocType.1 percolator_doc_type none st1.es with
    | .error e => .error e
    | .ok es =>
      match _percolate_query cfg es indexDocType.1 indexDocType.2 percolator_doc_type document with
      | .error e => .error e
      | .ok results => .ok (staticPart ++ stripMatches results, { st1 with es := es })

/-- The `must` clauses a percolate-query body can carry: percolation of
inline documents, percolation of an already indexed document reference,
and an ids filter. -/
inductive MustClause
  | percolateDocs (documents : List Doc)
  | percolateStored (index id name : String)
  | idsFilter (values : List String)
deriving DecidableEq, Repr

/-- Translation of `create_percolate_query`: `none` models the bare `{}`
returned when neither `documents` nor a length-consistent pair of
`document_es_ids`/`document_es_indices` is supplied; otherwise the list of
`must` clauses of the produced `{"query": {"bool": {"must": [...]}}}`
body, with the ids filter appended for a truthy `percolator_ids`. -/
def create_percolate_query (percolator_ids : Option (List String))
    (documents : Option (List Doc)) (document_es_ids : Option (List String))
    (document_es_indices : Option (List String)) : Option (List MustClause) :=
  let base : Option (List MustClause) :=
    match documents with
    | some ds => some [.percolateDocs ds]
    | none =>
      match document_es_ids, document_es_indices with
      | some es_ids, some es_indices =>
        if es_ids.length = es_indices.length then
          some ((es_ids.zip es_indices).map
            (fun p => .percolateStored p.2 p.1 (p.2 ++ ":" ++ p.1)))
        else none
      | some _, none => none
      | none, _ => none
  match base with
  | none => none
  | some queries =>
    match percolator_ids with
    | some ids => if ids.isEmpty then some queries else some (queries ++ [.idsFilter ids])
    | none => some queries

/-- Evaluation of one `must` clause against a stored percolator document:
a multi-document percolate clause matches when the stored query matches
any of the submitted documents; the ids filter requires the document id
to be listed. -/
def evalClause (cfg : Config) (entry : DocEntry) : MustClause → Bool
  | .percolateDocs ds => ds.any (fun d => cfg.docMatches entry.2.2 d)
  | .percolateStored index id _ => cfg.storedMatches index id entry.2.2
  | .idsFilter values => values.contains entry.2.1

/-- The engine's answer to `search(index=..., body=query, size=20)`: the
ids of the documents of the index satisfying every `must` clause (an
empty `{}` body is match-all), truncated to the first page of 20 hits —
the scroll is never advanced by the caller. -/
def searchHits (cfg : Config) (es : ES) (pindex : String)
    (query : Option (List MustClause)) : List String :=
  (((es.docs.filter (fun e => e.1 == pindex)).filter
      (fun e =>
        match query with
        | none => true
        | some clauses => clauses.all (evalClause cfg e))).map
    (fun e => e.2.1)).take 20

/-- The hardcoded content index of `record_in_set`, `percolate_query`
(via `index_sets`) and `find_sets_for_record`. -/
def rdmIndex : String := "rdmrecords-records-record-v4.0.0"

/-- Translation of `index_sets()`: an early return when the `OAISet`
table is empty; otherwise ensure the percolator mapping for the hardcoded
index and re-index, for every set row, the translated query under the
bare id `set.spec`.  Only the state effect is modelled; the Python return
value is unused by the caller. -/
def index_sets (cfg : Config) (st : St) : Except String St :=
  if st.db.isEmpty then .ok st
  else
    match _get_percolator_doc_type cfg rdmIndex with
    | .error e => .error e
    | .ok percolator_doc_type =>
      match _create_percolator_mapping cfg rdmIndex percolator_doc_type none st.es with
      | .error e => .error e
      | .ok es =>
        let es2 := st.db.foldl
          (fun es oaiset =>
            let docs2 := upsertDoc (_build_percolator_index_name cfg rdmIndex)
              oaiset.spec (query_string_parse oaiset.search_pattern) es.docs
            { es with docs := docs2 })
          es
        .ok { st with es := es2 }

/-- Translation of `percolate_query(...)`: first the `index_sets()` side
effect, then one `search` call with the body built by
`create_percolate_query`; the hit ids of the first page are returned
together with the updated state. -/
def percolate_query (cfg : Config) (percolator_index : String)
    (percolator_ids : Option (List String)) (documents : Option (List Doc))
    (document_es_ids : Option (List String)) (document_es_indices : Option (List String))
    (st : St) : Except String (List String × St) :=
  match index_sets cfg st with
  | .error e => .error e
  | .ok st2 =>
    let query := create_percolate_query percolator_ids documents document_es_ids
      document_es_indices
    .ok (searchHits cfg st2.es percolator_index query, st2)

/-- Translation of `record_in_set(record, set_spec)`: percolate the record
against the hardcoded percolator index scoped to `percolator_ids =
[set_spec]` and report whether any hit came back. -/
def record_in_set (cfg : Config) (record : Doc) (set_spec : String) (st : St) :
    Except String (Bool × St) :=
  let percolator_index := _build_percolator_index_name cfg rdmIndex
  match percolate_query cfg percolator_index (some [set_spec]) (some [record]) none none st with
  | .error e => .error e
  | .ok r => .ok (r.1.length > 0, r.2)

/-- Translation of `find_sets_for_record(record)`: percolate the record
against the hardcoded percolator index and return the raw hit ids. -/
def find_sets_for_record (cfg : Config) (record : Doc) (st : St) :
    Except String (List String × St) :=
  match percolate_query cfg "rdmrecords-records-record-v4.0.0-percolators" none
      (some [record]) none none st with
  | .error e => .error e
  | .ok r => .ok r

/-- Postcondition of one `_delete_percolator` loop iteration for `index`:
the percolator mapping/index is in place for the configured ES version and
no document at id `"oaiset-" + spec` remains in the percolator index. -/
def delStepDone (cfg : Config) (spec index : String) (es : ES) : Prop :=
  (cfg.esVersion = 5 ∨ cfg.esVersion = 6 → index ∈ es.percMapped) ∧
  (cfg.esVersion = 7 → _build_percolator_index_name cfg index ∈ es.indices) ∧
  (∀ e ∈ es.docs,
    (e.1 == _build_percolator_index_name cfg index && e.2.1 == ("oaiset-" ++ spec)) = false)

/-- The inputs on which `create_percolate_query` falls through to `{}`:
`document_es_ids` and `document_es_indices` are not both supplied with
equal lengths. -/
def invalidStoredRefs (document_es_ids document_es_indices : Option (List String)) : Prop :=
  ∀ a b, document_es_ids = some a → document_es_indices = some b → a.length ≠ b.length

/-- The spec's reading of a static set for comparison in C4: a set whose
search pattern is "empty or absent". -/
def staticSpecNames (db : List OAISet) : List String :=
  (db.filter (fun s => s.search_pattern.isNone || s.search_pattern == some "")).map
    (fun s => s.spec)

/-- A concrete ES7 configuration for the closed instances: one registered
mapping (the hardcoded content index), an oracle under which every stored
query matches every document, and a record resolver pointing at the
hardcoded index. -/
def cfgEx : Config :=
  ⟨7, [("rdmrecords-records-record-v4.0.0", "mp")], fun _ => "d",
   fun _ _ => true, fun _ _ _ => true, fun _ => [],
   fun _ => ("rdmrecords-records-record-v4.0.0", "d"), fun r => r⟩

/-- The ES7 percolator index name derived from the hardcoded index. -/
def pIdxEx : String := "rdmrecords-records-record-v4.0.0-percolators"

/-- Empty engine, empty set table, unbuilt cache. -/
def stEmpty : St := ⟨⟨[], [], []⟩, [], none⟩

/-- Engine holding one percolator document under the prefixed id
`"oaiset-physics"`; empty set table. -/
def stStale : St := ⟨⟨[pIdxEx], [], [(pIdxEx, "oaiset-physics", ⟨some "x"⟩)]⟩, [], none⟩

/-- Set table holding one pattern-free (static) set `"curated"`. -/
def stStatic : St := ⟨⟨[], [], []⟩, [⟨"curated", none⟩], none⟩

/-- Set table holding one set whose search pattern is the empty string. -/
def stEmptyPat : St := ⟨⟨[], [], []⟩, [⟨"s", some ""⟩], none⟩

/-- Engine holding one percolator document for set `"s"`. -/
def stOne : St := ⟨⟨[], [], [(pIdxEx, "oaiset-s", ⟨some "q"⟩)]⟩, [], none⟩

/-- The state `stOne` after `_delete_percolator` under `cfgEx`: the
percolator index has been ensured and the document removed. -/
def stOneAfter : St := ⟨⟨[pIdxEx], [], []⟩, [], none⟩

/-- Engine holding 21 percolator documents in index `"P"`, all of which
match every document under `cfgEx`. -/
def stMany : St :=
  ⟨⟨[pIdxEx], [], (List.range 21).map (fun i => ("P", toString i, ⟨some "q"⟩))⟩, [], none⟩

/-- The state `stEmpty` after `_new_percolator "s" "q"` under `cfgEx`. -/
def stNewAfter : St :=
  ⟨⟨[pIdxEx], [], [(pIdxEx, "oaiset-s", ⟨some "q"⟩)]⟩, [], none⟩

/-- The state `stStatic` after `index_sets` under `cfgEx`: the pattern-free
set `"curated"` received a percolator document under the bare id
`"curated"`. -/
def stStaticAfter : St :=
  ⟨⟨[pIdxEx], [], [(pIdxEx, "curated", ⟨none⟩)]⟩, [⟨"curated", none⟩], none⟩

/-- Like `cfgEx` but with a record sets fetcher binding every record to
the static set `"curated"`. -/
def cfgW : Config :=
  ⟨7, [("rdmrecords-records-record-v4.0.0", "mp")], fun _ => "d",
   fun _ _ => true, fun _ _ _ => true, fun _ => ["curated"],
   fun _ => ("rdmrecords-records-record-v4.0.0", "d"), fun r => r⟩

/-- Static set `"curated"` in the table plus a stored percolator query
`"oaiset-physics"` in the engine; unbuilt cache. -/
def stW : St :=
  ⟨⟨[pIdxEx], [], [(pIdxEx, "oaiset-physics", ⟨some "x"⟩)]⟩, [⟨"curated", none⟩], none⟩

/-- The state `stW` after `get_record_sets` under `cfgW`: the cache has
been built. -/
def stW2 : St :=
  ⟨⟨[pIdxEx], [], [(pIdxEx, "oaiset-physics", ⟨some "x"⟩)]⟩, [⟨"curated", none⟩],
   some ["curated"]⟩

/-- A state whose cache is already built (to `["x"]`), over a table whose
single set has a pattern. -/
def stWithCache : St := ⟨⟨[], [], []⟩, [⟨"s", some "p"⟩], some ["x"]⟩

/-- Engine holding one percolator document under the bare id `"physics"`,
as written by `index_sets`; empty set table. -/
def stInSet : St := ⟨⟨[pIdxEx], [], [(pIdxEx, "physics", ⟨some "x"⟩)]⟩, [], none⟩

end InvenioOAIServer

namespace InvenioOAIServer

/-! ## Helper lemmas -/

theorem leadsWith_iff (p s : List Char) : leadsWith p s = true ↔ ∃ t, s = p ++ t := by
  induction p generalizing s with
  | nil => simp [leadsWith]
  | cons a ps ih =>
    cases s with
    | nil =>
      simp [leadsWith]
    | cons c cs =>
      simp only [leadsWith, Bool.and_eq_true, beq_iff_eq, ih]
      constructor
      · rintro ⟨rfl, t, rfl⟩
        exact ⟨t, rfl⟩
      · rintro ⟨t, h⟩
        cases h
        exact ⟨rfl, t, rfl⟩

theorem mem_stripMatches (results : List String) (n : String) :
    n ∈ stripMatches results ↔ ("oaiset-" ++ n) ∈ results := by
  unfold stripMatches
  simp only [List.mem_map, List.mem_filter]
  constructor
  · rintro ⟨s, ⟨hs, hpre⟩, rfl⟩
    obtain ⟨t, ht⟩ := (leadsWith_iff "oaiset-".data s.data).mp hpre
    have hsl : pySliceFrom s "oaiset-".length = ⟨t⟩ := by
      unfold pySliceFrom
      rw [ht]
      rfl
    have hrec : ("oaiset-" ++ pySliceFrom s "oaiset-".length) = s := by
      rw [hsl]
      cases s with
      | mk d =>
        simp only at ht
        rw [ht]
        rfl
    rwa [hrec]
  · intro h
    refine ⟨"oaiset-" ++ n, ⟨h, ?_⟩, ?_⟩
    · exact (leadsWith_iff "oaiset-".data ("oaiset-" ++ n).data).mpr
        ⟨n.data, by rw [String.data_append]⟩
    · show pySliceFrom ("oaiset-" ++ n) "oaiset-".length = n
      unfold pySliceFrom
      rw [String.data_append]
      show String.mk (("oaiset-".data ++ n.data).drop 7) = n
      have : ("oaiset-".data ++ n.data).drop 7 = n.data := rfl
      rw [this]

theorem mem_staticMatches (cache record_sets : List String) (n : String) :
    n ∈ staticMatches cache record_sets ↔ n ∈ cache ∧ n ∈ record_sets := by
  unfold staticMatches
  simp [List.mem_filter]

theorem mem_upsertDoc (i id : String) (q : Query) (e : DocEntry) :
    ∀ docs, e ∈ upsertDoc i id q docs → e ∈ docs ∨ e = (i, id, q) := by
  intro docs
  induction docs with
  | nil => simp [upsertDoc]
  | cons d rest ih =>
    unfold upsertDoc
    by_cases h : d.1 = i ∧ d.2.1 = id
    · rw [if_pos h]
      intro hm
      rcases List.mem_cons.mp hm with h1 | h1
      · exact Or.inr h1
      · exact Or.inl (List.mem_cons_of_mem _ h1)
    · rw [if_neg h]
      intro hm
      rcases List.mem_cons.mp hm with h1 | h1
      · exact Or.inl (List.mem_cons.mpr (Or.inl h1))
      · rcases ih h1 with h2 | h2
        · exact Or.inl (List.mem_cons_of_mem _ h2)
        · exact Or.inr h2

theorem docLookupL_upsert_self (i id : String) (q : Query) :
    ∀ docs, docLookupL (upsertDoc i id q docs) i id = some q := by
  intro docs
  induction docs with
  | nil => simp [upsertDoc, docLookupL, List.find?]
  | cons d rest ih =>
    unfold upsertDoc
    by_cases h : d.1 = i ∧ d.2.1 = id
    · rw [if_pos h]
      simp [docLookupL, List.find?]
    · rw [if_neg h]
      unfold docLookupL at ih ⊢
      rw [List.find?_cons]
      have : (d.1 == i && d.2.1 == id) = false := by
        rcases not_and_or.mp h with h1 | h1 <;> simp [h1]
      rw [this]
      exact ih

theorem docLookupL_isSome_iff (docs : List DocEntry) (i2 id2 : String) :
    (docLookupL docs i2 id2).isSome = true ↔
      ∃ e ∈ docs, (e.1 == i2 && e.2.1 == id2) = true := by
  unfold docLookupL
  cases hfind : docs.find? (fun e => e.1 == i2 && e.2.1 == id2) with
  | none =>
    simp only [Option.map_none', Option.isSome_none]
    constructor
    · intro h
      cases h
    · rintro ⟨e, he, hp⟩
      exact absurd hp (List.find?_eq_none.mp hfind e he)
  | some e =>
    simp only [Option.map_some', Option.isSome_some, true_iff]
    have hp := List.find?_some hfind
    exact ⟨e, List.mem_of_find?_eq_some hfind, hp⟩

theorem self_mem_upsertDoc (i id : String) (q : Query) :
    ∀ docs, (i, id, q) ∈ upsertDoc i id q docs := by
  intro docs
  induction docs with
  | nil => simp [upsertDoc]
  | cons d rest ih =>
    unfold upsertDoc
    by_cases h : d.1 = i ∧ d.2.1 = id
    · rw [if_pos h]
      exact List.mem_cons_self _ _
    · rw [if_neg h]
      exact List.mem_cons_of_mem _ ih

theorem mem_upsertDoc_of_mem (i id : String) (q : Query) (e : DocEntry) :
    ∀ docs, e ∈ docs → e ∈ upsertDoc i id q docs ∨ (e.1 = i ∧ e.2.1 = id) := by
  intro docs
  induction docs with
  | nil => simp
  | cons d rest ih =>
    unfold upsertDoc
    by_cases h : d.1 = i ∧ d.2.1 = id
    · rw [if_pos h]
      intro hm
      rcases List.mem_cons.mp hm with rfl | h1
      · exact Or.inr h
      · exact Or.inl (List.mem_cons_of_mem _ h1)
    · rw [if_neg h]
      intro hm
      rcases List.mem_cons.mp hm with rfl | h1
      · exact Or.inl (List.mem_cons_self _ _)
      · rcases ih h1 with h2 | h2
        · exact Or.inl (List.mem_cons_of_mem _ h2)
        · exact Or.inr h2

theorem docLookupL_upsert_isSome (i id i2 id2 : String) (q : Query) :
    ∀ docs, (docLookupL docs i2 id2).isSome →
      (docLookupL (upsertDoc i id q docs) i2 id2).isSome := by
  intro docs hs
  rw [docLookupL_isSome_iff] at hs ⊢
  obtain ⟨e, he, hp⟩ := hs
  rcases mem_upsertDoc_of_mem i id q e docs he with h1 | h1
  · exact ⟨e, h1, hp⟩
  · refine ⟨(i, id, q), self_mem_upsertDoc i id q docs, ?_⟩
    show (i == i2 && id == id2) = true
    rw [← h1.1, ← h1.2]
    exact hp

theorem foldE_trans {α : Type} {f : ES → α → Except String ES} {P : ES → ES → Prop}
    (hrefl : ∀ a, P a a) (htrans : ∀ a b c, P a b → P b c → P a c)
    (hstep : ∀ es x es2, f es x = .ok es2 → P es es2) :
    ∀ l es es2, foldE f l es = .ok es2 → P es es2 := by
  intro l
  induction l with
  | nil =>
    intro es es2 h
    cases Except.ok.inj h
    exact hrefl es
  | cons x xs ih =>
    intro es es2 h
    unfold foldE at h
    cases hx : f es x with
    | error e =>
      rw [hx] at h
      cases h
    | ok es1 =>
      rw [hx] at h
      exact htrans _ _ _ (hstep es x es1 hx) (ih es1 es2 h)

theorem foldE_pres {α : Type} {f : ES → α → Except String ES} {Q : ES → Prop}
    (hpres : ∀ es x es2, f es x = .ok es2 → Q es → Q es2) :
    ∀ l es es2, foldE f l es = .ok es2 → Q es → Q es2 :=
  foldE_trans (P := fun a b => Q a → Q b) (fun _ => id)
    (fun _ _ _ hab hbc => hbc ∘ hab) hpres

theorem foldE_all_post {α : Type} {f : ES → α → Except String ES} {Q : α → ES → Prop}
    (hstep : ∀ es x es2, f es x = .ok es2 → Q x es2)
    (hpres : ∀ es x es2 y, f es x = .ok es2 → Q y es → Q y es2) :
    ∀ l es es2, foldE f l es = .ok es2 → ∀ x ∈ l, Q x es2 := by
  intro l
  induction l with
  | nil =>
    intro es es2 h x hx
    cases hx
  | cons a xs ih =>
    intro es es2 h x hx
    unfold foldE at h
    cases ha : f es a with
    | error e =>
      rw [ha] at h
      cases h
    | ok es1 =>
      rw [ha] at h
      rcases List.mem_cons.mp hx with rfl | hx2
      · exact foldE_pres (Q := Q x) (fun es' y es2' hf => hpres es' y es2' x hf)
          xs es1 es2 h (hstep es x es1 ha)
      · exact ih es1 es2 h x hx2

theorem foldE_noop {α : Type} {f : ES → α → Except String ES} :
    ∀ l es, (∀ x ∈ l, f es x = .ok es) → foldE f l es = .ok es := by
  intro l
  induction l with
  | nil =>
    intro es _
    rfl
  | cons a xs ih =>
    intro es h
    unfold foldE
    rw [h a (List.mem_cons_self a xs)]
    exact ih es (fun x hx => h x (List.mem_cons_of_mem a hx))

theorem foldE_ok {α : Type} {f : ES → α → Except String ES} :
    ∀ l es, (∀ x ∈ l, ∀ es1, ∃ es2, f es1 x = .ok es2) →
      ∃ es2, foldE f l es = .ok es2 := by
  intro l
  induction l with
  | nil =>
    intro es _
    exact ⟨es, rfl⟩
  | cons a xs ih =>
    intro es h
    obtain ⟨es1, h1⟩ := h a (List.mem_cons_self a xs) es
    unfold foldE
    rw [h1]
    exact ih es1 (fun x hx => h x (List.mem_cons_of_mem a hx))

theorem lookupMapping_ok_of_mem (cfg : Config) (index : String)
    (h : index ∈ cfg.mappings.map (fun e => e.1)) :
    ∃ p, lookupMapping cfg index = .ok p := by
  unfold lookupMapping
  cases hfind : cfg.mappings.find? (fun e2 => e2.1 == index) with
  | some e2 => exact ⟨e2.2, rfl⟩
  | none =>
    exfalso
    obtain ⟨e, he, heq⟩ := List.mem_map.mp h
    exact (List.find?_eq_none.mp hfind e he) (by simp [heq])

theorem getDocType_ok (cfg : Config) (index : String)
    (h : index ∈ cfg.mappings.map (fun e => e.1)) :
    ∃ d, _get_percolator_doc_type cfg index = .ok d := by
  obtain ⟨p, hp⟩ := lookupMapping_ok_of_mem cfg index h
  unfold _get_percolator_doc_type
  split_ifs with h1 h2 h3
  · exact ⟨_, rfl⟩
  · exact ⟨_, rfl⟩
  · rw [hp]
    exact ⟨_, rfl⟩
  · exact ⟨_, rfl⟩

theorem createMapping_effects (cfg : Config) (index doc_type : String)
    (mp : Option String) (es es2 : ES)
    (h : _create_percolator_mapping cfg index doc_type mp es = .ok es2) :
    es2.docs = es.docs ∧ (∀ x ∈ es.indices, x ∈ es2.indices) ∧
      (∀ x ∈ es.percMapped, x ∈ es2.percMapped) := by
  by_cases h1 : cfg.esVersion = 5 ∨ cfg.esVersion = 6
  · simp only [_create_percolator_mapping, if_pos h1, Except.ok.injEq] at h
    subst h
    refine ⟨rfl, fun x hx => hx, fun x hx => ?_⟩
    show x ∈ insertIfAbsent index es.percMapped
    unfold insertIfAbsent
    split
    · exact hx
    · exact List.mem_cons_of_mem _ hx
  · by_cases h2 : cfg.esVersion = 7
    · simp only [_create_percolator_mapping, if_neg h1, if_pos h2] at h
      cases hl : (match mp with
        | none => lookupMapping cfg index
        | some p => if p = "" then lookupMapping cfg index else Except.ok p) with
      | error e =>
        rw [hl] at h
        cases h
      | ok p =>
        rw [hl] at h
        by_cases h3 : _build_percolator_index_name cfg index ∈ es.indices
        · simp only [if_pos h3, Except.ok.injEq] at h
          subst h
          exact ⟨rfl, fun x hx => hx, fun x hx => hx⟩
        · simp only [if_neg h3, Except.ok.injEq] at h
          subst h
          exact ⟨rfl, fun x hx => List.mem_cons_of_mem _ hx, fun x hx => hx⟩
    · simp only [_create_percolator_mapping, if_neg h1, if_neg h2, Except.ok.injEq] at h
      subst h
      exact ⟨rfl, fun x hx => hx, fun x hx => hx⟩

theorem createMapping_post (cfg : Config) (index doc_type : String)
    (mp : Option String) (es es2 : ES)
    (h : _create_percolator_mapping cfg index doc_type mp es = .ok es2) :
    (cfg.esVersion = 5 ∨ cfg.esVersion = 6 → index ∈ es2.percMapped) ∧
      (cfg.esVersion = 7 → _build_percolator_index_name cfg index ∈ es2.indices) := by
  by_cases h1 : cfg.esVersion = 5 ∨ cfg.esVersion = 6
  · simp only [_create_percolator_mapping, if_pos h1, Except.ok.injEq] at h
    subst h
    constructor
    · intro _
      show index ∈ insertIfAbsent index es.percMapped
      unfold insertIfAbsent
      split
      · assumption
      · exact List.mem_cons_self _ _
    · intro h7
      rcases h1 with h5 | h6 <;> omega
  · by_cases h2 : cfg.esVersion = 7
    · simp only [_create_percolator_mapping, if_neg h1, if_pos h2] at h
      cases hl : (match mp with
        | none => lookupMapping cfg index
        | some p => if p = "" then lookupMapping cfg index else Except.ok p) with
      | error e =>
        rw [hl] at h
        cases h
      | ok p =>
        rw [hl] at h
        by_cases h3 : _build_percolator_index_name cfg index ∈ es.indices
        · simp only [if_pos h3, Except.ok.injEq] at h
          subst h
          exact ⟨fun hx => absurd hx h1, fun _ => h3⟩
        · simp only [if_neg h3, Except.ok.injEq] at h
          subst h
          exact ⟨fun hx => absurd hx h1, fun _ => List.mem_cons_self _ _⟩
    · simp only [_create_percolator_mapping, if_neg h1, if_neg h2, Except.ok.injEq] at h
      subst h
      exact ⟨fun hx => absurd hx h1, fun hx => absurd hx h2⟩

theorem createMapping_ok_none (cfg : Config) (index doc_type : String) (es : ES)
    (hk : index ∈ cfg.mappings.map (fun e => e.1)) :
    ∃ es2, _create_percolator_mapping cfg index doc_type none es = .ok es2 := by
  obtain ⟨p, hp⟩ := lookupMapping_ok_of_mem cfg index hk
  by_cases h1 : cfg.esVersion = 5 ∨ cfg.esVersion = 6
  · exact ⟨{ es with percMapped := insertIfAbsent index es.percMapped },
      by simp only [_create_percolator_mapping, if_pos h1]⟩
  · by_cases h2 : cfg.esVersion = 7
    · by_cases h3 : _build_percolator_index_name cfg index ∈ es.indices
      · exact ⟨es, by simp only [_create_percolator_mapping, if_neg h1, if_pos h2, hp,
          if_pos h3]⟩
      · exact ⟨{ es with indices := _build_percolator_index_name cfg index :: es.indices },
          by simp only [_create_percolator_mapping, if_neg h1, if_pos h2, hp, if_neg h3]⟩
    · exact ⟨es, by simp only [_create_percolator_mapping, if_neg h1, if_neg h2]⟩

theorem createMapping_ready_noop (cfg : Config) (index doc_type : String) (es : ES)
    (hk : index ∈ cfg.mappings.map (fun e => e.1))
    (h56 : cfg.esVersion = 5 ∨ cfg.esVersion = 6 → index ∈ es.percMapped)
    (h7 : cfg.esVersion = 7 → _build_percolator_index_name cfg index ∈ es.indices) :
    _create_percolator_mapping cfg index doc_type none es = .ok es := by
  obtain ⟨p, hp⟩ := lookupMapping_ok_of_mem cfg index hk
  by_cases h1 : cfg.esVersion = 5 ∨ cfg.esVersion = 6
  · simp only [_create_percolator_mapping, if_pos h1, Except.ok.injEq]
    show ({ es with percMapped := insertIfAbsent index es.percMapped } : ES) = es
    unfold insertIfAbsent
    rw [if_pos (h56 h1)]
  · by_cases h2 : cfg.esVersion = 7
    · simp only [_create_percolator_mapping, if_neg h1, if_pos h2, hp, if_pos (h7 h2)]
    · simp only [_create_percolator_mapping, if_neg h1, if_neg h2]

theorem esDeleteDoc_ok (es : ES) (i id : String) :
    ∃ es2, esDeleteDoc es i id true = .ok es2 ∧ es2.indices = es.indices ∧
      es2.percMapped = es.percMapped ∧ (∀ e ∈ es2.docs, e ∈ es.docs) := by
  unfold esDeleteDoc
  split
  · exact ⟨_, rfl, rfl, rfl, fun e he => List.mem_of_mem_filter he⟩
  · exact ⟨es, rfl, rfl, rfl, fun e he => he⟩

theorem esDeleteDoc_post (es es2 : ES) (i id : String) (ig : Bool)
    (h : esDeleteDoc es i id ig = .ok es2) :
    ∀ e ∈ es2.docs, (e.1 == i && e.2.1 == id) = false := by
  unfold esDeleteDoc at h
  split at h
  · cases Except.ok.inj h
    intro e he
    have hm := List.of_mem_filter he
    simp only [Bool.not_eq_true'] at hm
    exact hm
  · split at h
    · cases Except.ok.inj h
      rename_i hany _
      intro e he
      have hf : es.docs.any (fun e => e.1 == i && e.2.1 == id) = false :=
        Bool.eq_false_iff.mpr hany
      exact Bool.eq_false_iff.mpr (List.any_eq_false.mp hf e he)
    · cases h

theorem esDeleteDoc_noop (es : ES) (i id : String)
    (h : ∀ e ∈ es.docs, (e.1 == i && e.2.1 == id) = false) :
    esDeleteDoc es i id true = .ok es := by
  unfold esDeleteDoc
  have hany : es.docs.any (fun e => e.1 == i && e.2.1 == id) = false :=
    List.any_eq_false.mpr (fun e he => by simp [h e he])
  rw [hany]
  rfl

theorem esDeleteDoc_effects (es es2 : ES) (i id : String) (ig : Bool)
    (h : esDeleteDoc es i id ig = .ok es2) :
    es2.indices = es.indices ∧ es2.percMapped = es.percMapped ∧
      ∀ e ∈ es2.docs, e ∈ es.docs := by
  unfold esDeleteDoc at h
  split at h
  · cases Except.ok.inj h
    exact ⟨rfl, rfl, fun e he => List.mem_of_mem_filter he⟩
  · split at h
    · cases Except.ok.inj h
      exact ⟨rfl, rfl, fun e he => he⟩
    · cases h

theorem deleteStep_ok (cfg : Config) (spec index : String)
    (hk : index ∈ cfg.mappings.map (fun e => e.1)) (es : ES) :
    ∃ es2, deletePercolatorStep cfg spec es index = .ok es2 := by
  obtain ⟨d, hd⟩ := getDocType_ok cfg index hk
  obtain ⟨es1, h1⟩ := createMapping_ok_none cfg index d es hk
  obtain ⟨es2, h2, _⟩ := esDeleteDoc_ok es1 (_build_percolator_index_name cfg index)
    ("oaiset-" ++ spec)
  exact ⟨es2, by simp only [deletePercolatorStep, hd, h1, h2]⟩

theorem deleteStep_post (cfg : Config) (spec index : String) (es es2 : ES)
    (h : deletePercolatorStep cfg spec es index = .ok es2) :
    delStepDone cfg spec index es2 := by
  unfold deletePercolatorStep at h
  cases hd : _get_percolator_doc_type cfg index with
  | error e =>
    simp only [hd] at h
    cases h
  | ok d =>
    simp only [hd] at h
    cases hc : _create_percolator_mapping cfg index d none es with
    | error e =>
      simp only [hc] at h
      cases h
    | ok es1 =>
      simp only [hc] at h
      obtain ⟨hp56, hp7⟩ := createMapping_post cfg index d none es es1 hc
      obtain ⟨hi, hp, _⟩ := esDeleteDoc_effects es1 es2 _ _ true h
      refine ⟨fun hv => ?_, fun hv => ?_, ?_⟩
      · rw [hp]
        exact hp56 hv
      · rw [hi]
        exact hp7 hv
      · exact esDeleteDoc_post es1 es2 _ _ true h

theorem deleteStep_pres (cfg : Config) (spec : String) (es : ES) (index2 : String)
    (es2 : ES) (index : String)
    (h : deletePercolatorStep cfg spec es index2 = .ok es2)
    (hd : delStepDone cfg spec index es) : delStepDone cfg spec index es2 := by
  obtain ⟨d56, d7, ddocs⟩ := hd
  unfold deletePercolatorStep at h
  cases hgd : _get_percolator_doc_type cfg index2 with
  | error e =>
    simp only [hgd] at h
    cases h
  | ok d =>
    simp only [hgd] at h
    cases hc : _create_percolator_mapping cfg index2 d none es with
    | error e =>
      simp only [hc] at h
      cases h
    | ok es1 =>
      simp only [hc] at h
      obtain ⟨hdocs1, hmi, hmp⟩ := createMapping_effects cfg index2 d none es es1 hc
      obtain ⟨hi2, hp2, hsub⟩ := esDeleteDoc_effects es1 es2 _ _ true h
      refine ⟨fun hv => ?_, fun hv => ?_, fun e he => ?_⟩
      · rw [hp2]
        exact hmp index (d56 hv)
      · rw [hi2]
        exact hmi _ (d7 hv)
      · exact ddocs e (hdocs1 ▸ hsub e he)

theorem deleteStep_noop (cfg : Config) (spec index : String) (es : ES)
    (hk : index ∈ cfg.mappings.map (fun e => e.1))
    (hd : delStepDone cfg spec index es) :
    deletePercolatorStep cfg spec es index = .ok es := by
  obtain ⟨d, hgd⟩ := getDocType_ok cfg index hk
  have hc := createMapping_ready_noop cfg index d es hk hd.1 hd.2.1
  have he := esDeleteDoc_noop es _ _ hd.2.2
  simp only [deletePercolatorStep, hgd, hc, he]

theorem delete_noop_of_done (cfg : Config) (spec : String) (sp : Option String) (st : St)
    (hdone : ∀ i ∈ cfg.mappings.map (fun e => e.1), delStepDone cfg spec i st.es) :
    _delete_percolator cfg spec sp st = .ok st := by
  unfold _delete_percolator
  by_cases hs : spec ≠ ""
  · rw [if_pos hs]
    rw [foldE_noop _ st.es (fun i hi => deleteStep_noop cfg spec i st.es hi (hdone i hi))]
  · rw [if_neg hs]

theorem mem_insertIfAbsent_self (x : String) (l : List String) :
    x ∈ insertIfAbsent x l := by
  unfold insertIfAbsent
  split
  · assumption
  · exact List.mem_cons_self _ _

theorem insertIfAbsent_idem (x : String) (l : List String) :
    insertIfAbsent x (insertIfAbsent x l) = insertIfAbsent x l := by
  show (if x ∈ insertIfAbsent x l then insertIfAbsent x l else _) = insertIfAbsent x l
  rw [if_pos (mem_insertIfAbsent_self x l)]

theorem esDeleteDoc_removed (es es2 : ES) (i id : String) (ig : Bool)
    (h : esDeleteDoc es i id ig = .ok es2) :
    ∀ e ∈ es.docs, e ∈ es2.docs ∨ e.2.1 = id := by
  unfold esDeleteDoc at h
  split at h
  · cases Except.ok.inj h
    intro e he
    by_cases hp : (e.1 == i && e.2.1 == id) = true
    · exact Or.inr (by simpa using (Bool.and_eq_true _ _ |>.mp hp).2)
    · refine Or.inl (List.mem_filter.mpr ⟨he, ?_⟩)
      simp only [Bool.not_eq_true'] at hp ⊢
      simp [hp]
  · split at h
    · cases Except.ok.inj h
      exact fun e he => Or.inl he
    · cases h

theorem newStep_docs (cfg : Config) (spec : String) (q : Query) (es : ES)
    (im : String × String) (es2 : ES)
    (h : newPercolatorStep cfg spec q es im = .ok es2) :
    ∀ e ∈ es2.docs, e ∈ es.docs ∨ e.2.1 = "oaiset-" ++ spec := by
  unfold newPercolatorStep at h
  cases hd : _get_percolator_doc_type cfg im.1 with
  | error e =>
    simp only [hd] at h
    cases h
  | ok d =>
    simp only [hd] at h
    cases hc : _create_percolator_mapping cfg im.1 d (some im.2) es with
    | error e =>
      simp only [hc] at h
      cases h
    | ok es1 =>
      simp only [hc, Except.ok.injEq] at h
      subst h
      obtain ⟨hdocs, _, _⟩ := createMapping_effects cfg im.1 d (some im.2) es es1 hc
      intro e he
      rcases mem_upsertDoc _ _ _ e _ he with h1 | h1
      · exact Or.inl (hdocs ▸ h1)
      · subst h1
        exact Or.inr rfl

theorem deleteStep_docs (cfg : Config) (spec : String) (es : ES) (index : String)
    (es2 : ES) (h : deletePercolatorStep cfg spec es index = .ok es2) :
    (∀ e ∈ es2.docs, e ∈ es.docs) ∧
      (∀ e ∈ es.docs, e ∈ es2.docs ∨ e.2.1 = "oaiset-" ++ spec) := by
  unfold deletePercolatorStep at h
  cases hd : _get_percolator_doc_type cfg index with
  | error e =>
    simp only [hd] at h
    cases h
  | ok d =>
    simp only [hd] at h
    cases hc : _create_percolator_mapping cfg index d none es with
    | error e =>
      simp only [hc] at h
      cases h
    | ok es1 =>
      simp only [hc] at h
      obtain ⟨hdocs, _, _⟩ := createMapping_effects cfg index d none es es1 hc
      obtain ⟨_, _, hsub⟩ := esDeleteDoc_effects es1 es2 _ _ true h
      refine ⟨fun e he => hdocs ▸ hsub e he, fun e he => ?_⟩
      exact esDeleteDoc_removed es1 es2 _ _ true h e (hdocs.symm ▸ he)

theorem foldUpsert_docs (pI : String) (qf : OAISet → Query) :
    ∀ (db : List OAISet) (es : ES),
      (db.foldl (fun es o => { es with docs := upsertDoc pI o.spec (qf o) es.docs }) es).docs
        = db.foldl (fun d o => upsertDoc pI o.spec (qf o) d) es.docs := by
  intro db
  induction db with
  | nil =>
    intro es
    rfl
  | cons o rest ih =>
    intro es
    rw [List.foldl_cons, List.foldl_cons]
    exact ih { es with docs := upsertDoc pI o.spec (qf o) es.docs }

theorem foldUpsertL_pres (pI : String) (qf : OAISet → Query) :
    ∀ (db : List OAISet) (docs : List DocEntry) (i2 id2 : String),
      (docLookupL docs i2 id2).isSome →
      (docLookupL (db.foldl (fun d o => upsertDoc pI o.spec (qf o) d) docs) i2 id2).isSome := by
  intro db
  induction db with
  | nil =>
    intro docs i2 id2 h
    exact h
  | cons o rest ih =>
    intro docs i2 id2 h
    rw [List.foldl_cons]
    exact ih _ i2 id2 (docLookupL_upsert_isSome _ _ _ _ _ docs h)

theorem foldUpsertL_isSome (pI : String) (qf : OAISet → Query) :
    ∀ (db : List OAISet) (docs : List DocEntry) (s : OAISet), s ∈ db →
      (docLookupL (db.foldl (fun d o => upsertDoc pI o.spec (qf o) d) docs) pI s.spec).isSome := by
  intro db
  induction db with
  | nil =>
    intro docs s hs
    cases hs
  | cons o rest ih =>
    intro docs s hs
    rw [List.foldl_cons]
    rcases List.mem_cons.mp hs with h | h
    · subst h
      refine foldUpsertL_pres pI qf rest _ pI s.spec ?_
      rw [docLookupL_upsert_self]
      rfl
    · exact ih _ s h

theorem index_sets_effects (cfg : Config) (st st2 : St)
    (h : index_sets cfg st = .ok st2) :
    st2.db = st.db ∧ st2.cache = st.cache ∧
      ∀ s ∈ st.db, (docLookup st2.es (_build_percolator_index_name cfg rdmIndex) s.spec).isSome := by
  unfold index_sets at h
  by_cases hdb : st.db.isEmpty = true
  · rw [if_pos hdb] at h
    cases Except.ok.inj h
    refine ⟨rfl, rfl, fun s hs => ?_⟩
    rw [List.isEmpty_iff] at hdb
    rw [hdb] at hs
    cases hs
  · rw [if_neg hdb] at h
    cases hgd : _get_percolator_doc_type cfg rdmIndex with
    | error e =>
      simp only [hgd] at h
      cases h
    | ok d =>
      simp only [hgd] at h
      cases hc : _create_percolator_mapping cfg rdmIndex d none st.es with
      | error e =>
        simp only [hc] at h
        cases h
      | ok es1 =>
        simp only [hc, Except.ok.injEq] at h
        subst h
        refine ⟨rfl, rfl, fun s hs => ?_⟩
        show (docLookupL _ _ _).isSome
        rw [foldUpsert_docs (_build_percolator_index_name cfg rdmIndex)
          (fun o => query_string_parse o.search_pattern) st.db es1]
        exact foldUpsertL_isSome _ _ st.db es1.docs s hs

theorem percolate_query_state (cfg : Config) (pidx : String)
    (pids : Option (List String)) (docs : Option (List Doc))
    (eids eidxs : Option (List String)) (st : St) (hits : List String) (st2 : St)
    (h : percolate_query cfg pidx pids docs eids eidxs st = .ok (hits, st2)) :
    index_sets cfg st = .ok st2 ∧
      hits = searchHits cfg st2.es pidx (create_percolate_query pids docs eids eidxs) := by
  unfold percolate_query at h
  cases hi : index_sets cfg st with
  | error e =>
    simp only [hi] at h
    cases h
  | ok st3 =>
    simp only [hi, Except.ok.injEq, Prod.mk.injEq] at h
    obtain ⟨hh, hs⟩ := h
    subst hs
    exact ⟨rfl, hh.symm⟩

theorem get_record_sets_shape (cfg : Config) (record : Doc) (st : St)
    (names : List String) (st2 : St)
    (h : get_record_sets cfg record st = .ok (names, st2)) :
    ∃ rest, names =
      staticMatches (_build_cache st).1 (cfg.record_sets_fetcher record) ++ rest := by
  simp only [get_record_sets] at h
  cases hgd : _get_percolator_doc_type cfg (cfg.recordToIndex record).1 with
  | error e =>
    simp only [hgd] at h
    cases h
  | ok d =>
    simp only [hgd] at h
    cases hc : _create_percolator_mapping cfg (cfg.recordToIndex record).1 d none
        (_build_cache st).2.es with
    | error e =>
      simp only [hc] at h
      cases h
    | ok es1 =>
      simp only [hc] at h
      cases hq : _percolate_query cfg es1 (cfg.recordToIndex record).1
          (cfg.recordToIndex record).2 d (cfg.recordDumps record) with
      | error e =>
        simp only [hq] at h
        cases h
      | ok results =>
        simp only [hq, Except.ok.injEq, Prod.mk.injEq] at h
        exact ⟨stripMatches results, h.1.symm⟩

theorem length_take_pos_iff {α : Type} (l : List α) (n : Nat) (hn : 0 < n) :
    0 < (l.take n).length ↔ ∃ a, a ∈ l := by
  rw [List.length_take]
  constructor
  · intro h
    have h2 : 0 < l.length := by omega
    exact List.length_pos_iff_exists_mem.mp h2
  · intro h
    have h2 : 0 < l.length := List.length_pos_iff_exists_mem.mpr h
    omega

end InvenioOAIServer

namespace InvenioOAIServer

/-! ## Claim theorems -/

/-- C6: `_delete_percolator` is idempotent and never raises on missing
data: for a falsy set name it is a no-op, for every configuration and
state it succeeds (missing percolator documents and indices included),
and repeating the call with the same arguments succeeds again and leaves
the state of the first call unchanged. -/
theorem delete_percolator_idempotent (cfg : Config) (spec : String)
    (sp : Option String) (st : St) :
    (∃ st2, _delete_percolator cfg spec sp st = .ok st2) ∧
    _delete_percolator cfg "" sp st = .ok st ∧
    (∀ st2, _delete_percolator cfg spec sp st = .ok st2 →
      _delete_percolator cfg spec sp st2 = .ok st2) := by
  refine ⟨?_, ?_, ?_⟩
  · unfold _delete_percolator
    by_cases hs : spec ≠ ""
    · rw [if_pos hs]
      obtain ⟨es2, h2⟩ := foldE_ok (cfg.mappings.map (fun e => e.1)) st.es
        (fun x hx es1 => deleteStep_ok cfg spec x hx es1)
      exact ⟨{ st with es := es2 }, by rw [h2]⟩
    · rw [if_neg hs]
      exact ⟨st, rfl⟩
  · unfold _delete_percolator
    rw [if_neg (by simp)]
  · intro st2 h
    unfold _delete_percolator at h
    by_cases hs : spec ≠ ""
    · rw [if_pos hs] at h
      cases hf : foldE (deletePercolatorStep cfg spec) (cfg.mappings.map (fun e => e.1))
          st.es with
      | error e =>
        simp only [hf] at h
        cases h
      | ok es2 =>
        simp only [hf, Except.ok.injEq] at h
        subst h
        exact delete_noop_of_done cfg spec sp _
          (fun i hi => foldE_all_post
            (fun es x es' hx => deleteStep_post cfg spec x es es' hx)
            (fun es x es' y hx hq => deleteStep_pres cfg spec es x es' y hx hq)
            _ st.es es2 hf i hi)
    · rw [if_neg hs] at h
      cases Except.ok.inj h
      unfold _delete_percolator
      rw [if_neg hs]

/-- Witness for C6 at concrete input: deleting set `"s"` succeeds from
`stOne` and a second identical call succeeds with the state unchanged. -/
theorem delete_percolator_idempotent_witness :
    _delete_percolator cfgEx "s" none stOne = .ok stOneAfter ∧
    _delete_percolator cfgEx "s" none stOneAfter = .ok stOneAfter := by
  have h1 : _delete_percolator cfgEx "s" none stOne = .ok stOneAfter := by rfl
  exact ⟨h1, (delete_percolator_idempotent cfgEx "s" none stOne).2.2 stOneAfter h1⟩

/-- C7: `_create_percolator_mapping` is idempotent: under ES7, when the
derived percolator index already exists a successful call changes nothing
(and creates nothing); and for every ES version, repeating a successful
call with the same arguments succeeds with the same state. -/
theorem create_percolator_mapping_idempotent (cfg : Config) (index doc_type : String)
    (mp : Option String) (es : ES) :
    (cfg.esVersion = 7 → _build_percolator_index_name cfg index ∈ es.indices →
      ∀ es2, _create_percolator_mapping cfg index doc_type mp es = .ok es2 → es2 = es) ∧
    (∀ es2, _create_percolator_mapping cfg index doc_type mp es = .ok es2 →
      _create_percolator_mapping cfg index doc_type mp es2 = .ok es2) := by
  constructor
  · intro h7 hex es2 h
    have h1 : ¬(cfg.esVersion = 5 ∨ cfg.esVersion = 6) := by omega
    simp only [_create_percolator_mapping, if_neg h1, if_pos h7] at h
    cases hl : (match mp with
      | none => lookupMapping cfg index
      | some p => if p = "" then lookupMapping cfg index else Except.ok p) with
    | error e =>
      rw [hl] at h
      cases h
    | ok p =>
      rw [hl] at h
      simp only [if_pos hex, Except.ok.injEq] at h
      exact h.symm
  · intro es2 h
    by_cases h1 : cfg.esVersion = 5 ∨ cfg.esVersion = 6
    · simp only [_create_percolator_mapping, if_pos h1, Except.ok.injEq] at h ⊢
      subst h
      show ({ es with percMapped := insertIfAbsent index (insertIfAbsent index es.percMapped) } : ES)
        = { es with percMapped := insertIfAbsent index es.percMapped }
      rw [insertIfAbsent_idem]
    · by_cases h2 : cfg.esVersion = 7
      · simp only [_create_percolator_mapping, if_neg h1, if_pos h2] at h ⊢
        cases hl : (match mp with
          | none => lookupMapping cfg index
          | some p => if p = "" then lookupMapping cfg index else Except.ok p) with
        | error e =>
          rw [hl] at h
          cases h
        | ok p =>
          rw [hl] at h
          by_cases h3 : _build_percolator_index_name cfg index ∈ es.indices
          · simp only [if_pos h3, Except.ok.injEq] at h
            subst h
            simp only [if_pos h3]
          · simp only [if_neg h3, Except.ok.injEq] at h
            subst h
            rw [if_pos (List.mem_cons_self _ _)]
      · simp only [_create_percolator_mapping, if_neg h1, if_neg h2, Except.ok.injEq] at h
        subst h
        simp only [_create_percolator_mapping, if_neg h1, if_neg h2]

/-- Witness for C7 at concrete input: with the percolator index already
present, the call returns the state unchanged, and repeating it is
accepted. -/
theorem create_percolator_mapping_idempotent_witness :
    (∀ es2, _create_percolator_mapping cfgEx rdmIndex "d" none stOneAfter.es = .ok es2 →
      es2 = stOneAfter.es) ∧
    _create_percolator_mapping cfgEx rdmIndex "d" none stOneAfter.es = .ok stOneAfter.es :=
  ⟨(create_percolator_mapping_idempotent cfgEx rdmIndex "d" none stOneAfter.es).1
      (by rfl) (by decide),
    (create_percolator_mapping_idempotent cfgEx rdmIndex "d" none stOneAfter.es).2
      stOneAfter.es (by rfl)⟩

/-- C1 (counterexample): the document id convention is not
`"set-" + setName`: `_new_percolator` for set `"s"` stores the percolator
document under id `"oaiset-s"`, and no document with id `"set-s"` is
written. -/
theorem percolator_id_convention_counterexample :
    (_new_percolator cfgEx "s" (some "q") stEmpty).toOption.map
        (fun s2 => s2.es.docs.map (fun e => e.2.1)) = some ["oaiset-s"] ∧
    (_new_percolator cfgEx "s" (some "q") stEmpty).toOption.map
        (fun s2 => s2.es.docs.any (fun e => e.2.1 == "set-s")) = some false := by
  exact ⟨rfl, rfl⟩

/-- C1 (amended): the percolator document id convention is
`"oaiset-" + setName` everywhere: `_new_percolator` only writes documents
under that id, `_delete_percolator` removes only documents under that id,
and the percolate step of `get_record_sets` yields a name exactly when the
hit id is `"oaiset-"` followed by that name (ids without the prefix are
not yielded). -/
theorem percolator_id_convention_amended :
    (∀ cfg spec p st st2, _new_percolator cfg spec p st = .ok st2 →
      ∀ e ∈ st2.es.docs, e ∈ st.es.docs ∨ e.2.1 = "oaiset-" ++ spec) ∧
    (∀ cfg spec p st st2, _delete_percolator cfg spec p st = .ok st2 →
      (∀ e ∈ st2.es.docs, e ∈ st.es.docs) ∧
      (∀ e ∈ st.es.docs, e ∈ st2.es.docs ∨ e.2.1 = "oaiset-" ++ spec)) ∧
    (∀ results n, n ∈ stripMatches results ↔ ("oaiset-" ++ n) ∈ results) := by
  refine ⟨?_, ?_, fun results n => mem_stripMatches results n⟩
  · intro cfg spec p st st2 h
    unfold _new_percolator at h
    by_cases hc : spec ≠ "" ∧ pyTruthy p
    · rw [if_pos hc] at h
      cases hf : foldE (newPercolatorStep cfg spec (query_string_parse p)) cfg.mappings
          st.es with
      | error e =>
        simp only [hf] at h
        cases h
      | ok es2 =>
        simp only [hf, Except.ok.injEq] at h
        subst h
        exact foldE_trans (P := fun a b => ∀ e ∈ b.docs, e ∈ a.docs ∨ e.2.1 = "oaiset-" ++ spec)
          (fun a e he => Or.inl he)
          (fun a b c hab hbc e he => by
            rcases hbc e he with h1 | h1
            · exact hab e h1
            · exact Or.inr h1)
          (fun es x es' hx => newStep_docs cfg spec (query_string_parse p) es x es' hx)
          cfg.mappings st.es es2 hf
    · rw [if_neg hc] at h
      cases Except.ok.inj h
      exact fun e he => Or.inl he
  · intro cfg spec p st st2 h
    unfold _delete_percolator at h
    by_cases hc : spec ≠ ""
    · rw [if_pos hc] at h
      cases hf : foldE (deletePercolatorStep cfg spec) (cfg.mappings.map (fun e => e.1))
          st.es with
      | error e =>
        simp only [hf] at h
        cases h
      | ok es2 =>
        simp only [hf, Except.ok.injEq] at h
        subst h
        exact foldE_trans (P := fun a b => (∀ e ∈ b.docs, e ∈ a.docs) ∧
            (∀ e ∈ a.docs, e ∈ b.docs ∨ e.2.1 = "oaiset-" ++ spec))
          (fun a => ⟨fun e he => he, fun e he => Or.inl he⟩)
          (fun a b c hab hbc =>
            ⟨fun e he => hab.1 e (hbc.1 e he), fun e he => by
              rcases hab.2 e he with h1 | h1
              · exact hbc.2 e h1
              · exact Or.inr h1⟩)
          (fun es x es' hx => deleteStep_docs cfg spec es x es' hx)
          (cfg.mappings.map (fun e => e.1)) st.es es2 hf
    · rw [if_neg hc] at h
      cases Except.ok.inj h
      exact ⟨fun e he => he, fun e he => Or.inl he⟩

/-- Witness for C1 at concrete input: every document of the state produced
by `_new_percolator cfgEx "s"` is old or carries id `"oaiset-s"`, deleting
from `stOne` only removes `"oaiset-s"` documents, and `"physics"` is
recovered from the hit id `"oaiset-physics"`. -/
theorem percolator_id_convention_witness :
    (∀ e ∈ stNewAfter.es.docs, e ∈ stEmpty.es.docs ∨ e.2.1 = "oaiset-" ++ "s") ∧
    (∀ e ∈ stOne.es.docs, e ∈ stOneAfter.es.docs ∨ e.2.1 = "oaiset-" ++ "s") ∧
    ("physics" ∈ stripMatches ["oaiset-physics"]) :=
  ⟨percolator_id_convention_amended.1 cfgEx "s" (some "q") stEmpty stNewAfter (by rfl),
   (percolator_id_convention_amended.2.1 cfgEx "s" none stOne stOneAfter (by rfl)).2,
   (percolator_id_convention_amended.2.2 ["oaiset-physics"] "physics").mpr (by decide)⟩

/-- C3 (counterexample): `index_sets` does write a percolator document for
the pattern-free set `"curated"` (under the bare id `"curated"`), so it is
not the case that no operation ever writes a percolator document for a
static set. -/
theorem static_set_percolator_counterexample :
    (index_sets cfgEx stStatic).toOption.map
      (fun s2 => (docLookup s2.es pIdxEx "curated").isSome) = some true := by
  exact rfl

/-- C3 (amended): `_new_percolator` never writes anything for a set whose
pattern is absent or empty (it is a no-op), and the `"oaiset-"`-stripping
percolate step of `get_record_sets` never yields anything from a hit id
lacking the prefix — such as the bare spec ids written by `index_sets` —
every yielded name coming from a prefixed hit; but `index_sets` writes a
percolator document (under the bare spec id) for every set of the store,
pattern-free sets included. -/
theorem static_set_percolator_amended :
    (∀ cfg spec st, _new_percolator cfg spec none st = .ok st) ∧
    (∀ cfg spec st, _new_percolator cfg spec (some "") st = .ok st) ∧
    (∀ results s, pyStartsWith s "oaiset-" = false →
      stripMatches (s :: results) = stripMatches results) ∧
    (∀ results n, n ∈ stripMatches results → ("oaiset-" ++ n) ∈ results) ∧
    (∀ cfg st st2, index_sets cfg st = .ok st2 → ∀ s ∈ st.db,
      (docLookup st2.es (_build_percolator_index_name cfg rdmIndex) s.spec).isSome) := by
  refine ⟨?_, ?_, ?_, ?_, ?_⟩
  · intro cfg spec st
    unfold _new_percolator
    rw [if_neg (by simp [pyTruthy])]
  · intro cfg spec st
    unfold _new_percolator
    rw [if_neg (by simp [pyTruthy])]
  · intro results s h
    unfold stripMatches
    rw [List.filter_cons_of_neg (by simp [h])]
  · intro results n h
    exact (mem_stripMatches results n).mp h
  · intro cfg st st2 h s hs
    exact (index_sets_effects cfg st st2 h).2.2 s hs

/-- Witness for C3 at concrete input: upserting the pattern-free set
`"curated"` changes nothing, the unprefixed hit id `"curated"` contributes
nothing to the stripping step, and `index_sets` over the same store leaves
a percolator document for the static set. -/
theorem static_set_percolator_witness :
    _new_percolator cfgEx "curated" none stStatic = .ok stStatic ∧
    stripMatches ["curated", "oaiset-physics"] = stripMatches ["oaiset-physics"] ∧
    (∀ s ∈ stStatic.db,
      (docLookup stStaticAfter.es (_build_percolator_index_name cfgEx rdmIndex) s.spec).isSome) :=
  ⟨static_set_percolator_amended.1 cfgEx "curated" stStatic,
   static_set_percolator_amended.2.2.1 ["oaiset-physics"] "curated" (by decide),
   static_set_percolator_amended.2.2.2.2 cfgEx stStatic stStaticAfter (by rfl)⟩

/-- C8: every call to `percolate_query` first runs `index_sets` as a side
effect — the returned state is exactly the `index_sets` post-state, which
holds a freshly indexed percolator document for every set of the store —
and `record_in_set` and `find_sets_for_record` inherit the same side
effect, so none of them is a read-only operation on the percolator
index. -/
theorem percolate_query_side_effect (cfg : Config) (pidx : String)
    (pids : Option (List String)) (docs : Option (List Doc))
    (eids eidxs : Option (List String)) (record : Doc) (spec : String) (st : St) :
    (∀ hits st2, percolate_query cfg pidx pids docs eids eidxs st = .ok (hits, st2) →
      index_sets cfg st = .ok st2 ∧ ∀ s ∈ st.db,
        (docLookup st2.es (_build_percolator_index_name cfg rdmIndex) s.spec).isSome) ∧
    (∀ b st2, record_in_set cfg record spec st = .ok (b, st2) →
      index_sets cfg st = .ok st2) ∧
    (∀ l st2, find_sets_for_record cfg record st = .ok (l, st2) →
      index_sets cfg st = .ok st2) := by
  refine ⟨?_, ?_, ?_⟩
  · intro hits st2 h
    have h1 := (percolate_query_state cfg pidx pids docs eids eidxs st hits st2 h).1
    exact ⟨h1, (index_sets_effects cfg st st2 h1).2.2⟩
  · intro b st2 h
    unfold record_in_set at h
    cases hp : percolate_query cfg (_build_percolator_index_name cfg rdmIndex)
        (some [spec]) (some [record]) none none st with
    | error e =>
      simp only [hp] at h
      cases h
    | ok r =>
      simp only [hp, Except.ok.injEq, Prod.mk.injEq] at h
      have h1 := (percolate_query_state cfg _ _ _ _ _ st r.1 r.2 (by rw [hp])).1
      rw [h.2] at h1
      exact h1
  · intro l st2 h
    unfold find_sets_for_record at h
    cases hp : percolate_query cfg "rdmrecords-records-record-v4.0.0-percolators"
        none (some [record]) none none st with
    | error e =>
      simp only [hp] at h
      cases h
    | ok r =>
      simp only [hp, Except.ok.injEq] at h
      subst h
      exact (percolate_query_state cfg _ _ _ _ _ st l st2 hp).1

/-- Witness for C8 at concrete input: the state returned by a
`percolate_query` over the one-static-set store is the `index_sets`
post-state, and it holds a percolator document for every stored set. -/
theorem percolate_query_side_effect_witness :
    index_sets cfgEx stStatic = .ok stStaticAfter ∧
    (∀ s ∈ stStatic.db,
      (docLookup stStaticAfter.es (_build_percolator_index_name cfgEx rdmIndex) s.spec).isSome) :=
  (percolate_query_side_effect cfgEx pIdxEx none (some ["r"]) none none "r" "x" stStatic).1
    ["curated"] stStaticAfter (by rfl)

/-- C4 (counterexample): a set whose search pattern is the empty string
has an "empty or absent" pattern in the spec's sense, yet the first
`_build_cache` call (filtering `search_pattern IS NULL` only) does not
return its name. -/
theorem static_cache_counterexample :
    (_build_cache stEmptyPat).1 = [] ∧ staticSpecNames stEmptyPat.db = ["s"] :=
  ⟨rfl, rfl⟩

/-- C4 (amended): the first `_build_cache` call returns exactly the specs
of the sets whose search pattern is absent (NULL) — sets with an
empty-string pattern are excluded — and memoizes that list; every later
call returns the memoized list unchanged without consulting the store,
whatever its content. -/
theorem static_cache_amended (st : St) :
    (st.cache = none →
      (∀ n, n ∈ (_build_cache st).1 ↔ ∃ s ∈ st.db, s.spec = n ∧ s.search_pattern = none) ∧
      (_build_cache st).2 = { st with cache := some (_build_cache st).1 }) ∧
    (∀ c, st.cache = some c → ∀ db2,
      _build_cache { st with db := db2 } = (c, { st with db := db2 })) := by
  constructor
  · intro hc
    constructor
    · intro n
      simp only [_build_cache, hc]
      simp only [List.mem_map, List.mem_filter, Option.isNone_iff_eq_none]
      constructor
      · rintro ⟨s, ⟨hm, hn⟩, rfl⟩
        exact ⟨s, hm, rfl, hn⟩
      · rintro ⟨s, hm, rfl, hn⟩
        exact ⟨s, ⟨hm, hn⟩, rfl⟩
    · simp only [_build_cache, hc]
  · intro c hc db2
    simp only [_build_cache, hc]

/-- Witness for C4 at concrete input: the first call memoizes its result,
and with a built cache the call returns the cached list whatever the
store holds. -/
theorem static_cache_amended_witness :
    (_build_cache stEmptyPat).2 = { stEmptyPat with cache := some (_build_cache stEmptyPat).1 } ∧
    _build_cache { stWithCache with db := [] } = (["x"], { stWithCache with db := [] }) :=
  ⟨((static_cache_amended stEmptyPat).1 rfl).2,
   (static_cache_amended stWithCache).2 ["x"] rfl []⟩

/-- C5: the static-set step of `get_record_sets` — the first block of the
names it yields — is exactly the intersection of the cached pattern-free
specs with the set names the record is already externally bound to. -/
theorem static_step_intersection (cfg : Config) (record : Doc) (st : St) :
    (∀ names st2, get_record_sets cfg record st = .ok (names, st2) →
      ∃ rest, names =
        staticMatches (_build_cache st).1 (cfg.record_sets_fetcher record) ++ rest) ∧
    (∀ n, n ∈ staticMatches (_build_cache st).1 (cfg.record_sets_fetcher record) ↔
      n ∈ (_build_cache st).1 ∧ n ∈ cfg.record_sets_fetcher record) :=
  ⟨fun names st2 h => get_record_sets_shape cfg record st names st2 h,
   fun n => mem_staticMatches _ _ n⟩

/-- Witness for C5 at concrete input: a run of `get_record_sets` over the
one-static-set store yields the static intersection first. -/
theorem static_step_intersection_witness :
    ∃ rest, (["curated", "physics"] : List String) =
      staticMatches (_build_cache stW).1 (cfgW.record_sets_fetcher "r") ++ rest :=
  (static_step_intersection cfgW "r" stW).1 ["curated", "physics"] stW2 (by rfl)

/-- C2 (counterexample): `record_in_set` is not equivalent to membership
in `get_record_sets`: with a stored percolator document under id
`"oaiset-physics"` and an empty set table, `get_record_sets` yields
`"physics"` but `record_in_set record "physics"` returns false, because
the scoped ids filter `[set_spec]` never matches the `"oaiset-"`-prefixed
ids that `get_record_sets` strips. -/
theorem record_in_set_matchsets_counterexample :
    (get_record_sets cfgEx "r" stStale).toOption.map (fun p => p.1) = some ["physics"] ∧
    (record_in_set cfgEx "r" "physics" stStale).toOption.map (fun p => p.1) = some false :=
  ⟨rfl, rfl⟩

/-- C2 (amended): `record_in_set record name` percolates the record scoped
to `percolator_ids = [name]` and returns true exactly when the percolator
index (after the `index_sets` re-indexing) holds a document under the raw
id `name` whose query matches the record; this is not equivalent to
`name ∈ get_record_sets record`, whose percolate step only recovers names
from `"oaiset-"`-prefixed ids. -/
theorem record_in_set_scoped (cfg : Config) (record : Doc) (set_spec : String) (st : St) :
    ∀ b st2, record_in_set cfg record set_spec st = .ok (b, st2) →
      (b = true ↔ ∃ e ∈ st2.es.docs,
        e.1 = _build_percolator_index_name cfg rdmIndex ∧ e.2.1 = set_spec ∧
        cfg.docMatches e.2.2 record = true) := by
  intro b st2 h
  unfold record_in_set at h
  cases hp : percolate_query cfg (_build_percolator_index_name cfg rdmIndex)
      (some [set_spec]) (some [record]) none none st with
  | error e =>
    simp only [hp] at h
    cases h
  | ok r =>
    simp only [hp, Except.ok.injEq, Prod.mk.injEq] at h
    obtain ⟨hb, hst⟩ := h
    subst hb
    subst hst
    obtain ⟨hidx, hhits⟩ := percolate_query_state cfg _ _ _ _ _ st r.1 r.2 hp
    rw [hhits]
    have hq : create_percolate_query (some [set_spec]) (some [record]) none none =
        some [.percolateDocs [record], .idsFilter [set_spec]] := rfl
    rw [hq]
    simp only [searchHits, decide_eq_true_eq, gt_iff_lt]
    rw [length_take_pos_iff _ 20 (by omega)]
    simp only [List.mem_map, List.mem_filter, List.all_cons, List.all_nil, evalClause,
      List.any_cons, List.any_nil, Bool.or_false, Bool.and_true, Bool.and_eq_true,
      beq_iff_eq]
    constructor
    · rintro ⟨a, ⟨e, ⟨⟨he, hi⟩, hm, hc⟩, rfl⟩⟩
      refine ⟨e, he, hi, ?_, hm⟩
      simpa using hc
    · rintro ⟨e, he, hi, hid, hm⟩
      exact ⟨e.2.1, e, ⟨⟨he, hi⟩, hm, by simpa using hid⟩, rfl⟩

/-- Witness for C2 at concrete input: under `cfgEx`, a state holding a
document under the raw id `"physics"` makes `record_in_set` answer true,
exhibited through the amended characterization. -/
theorem record_in_set_scoped_witness :
    ∃ e ∈ stInSet.es.docs,
      e.1 = _build_percolator_index_name cfgEx rdmIndex ∧ e.2.1 = "physics" ∧
      cfgEx.docMatches e.2.2 "r" = true :=
  (record_in_set_scoped cfgEx "r" "physics" stInSet true stInSet (by rfl)).mp rfl

/-- C9: `percolate_query` is issued with `size=20` and the scroll is never
advanced, so it returns at most 20 hits for every input — as does
`find_sets_for_record` on top of it — and a 21st matching stored query is
silently omitted, as the closing concrete instance exhibits. -/
theorem percolate_query_size_cap (cfg : Config) (pidx : String)
    (pids : Option (List String)) (docs : Option (List Doc))
    (eids eidxs : Option (List String)) (record : Doc) (st : St) :
    (∀ hits st2, percolate_query cfg pidx pids docs eids eidxs st = .ok (hits, st2) →
      hits.length ≤ 20) ∧
    (∀ l st2, find_sets_for_record cfg record st = .ok (l, st2) → l.length ≤ 20) ∧
    (percolate_query cfgEx "P" none (some ["d"]) none none stMany).toOption.map
        (fun p => decide ("20" ∈ p.1)) = some false ∧
    ("P", "20", (⟨some "q"⟩ : Query)) ∈ stMany.es.docs ∧
    cfgEx.docMatches ⟨some "q"⟩ "d" = true := by
  refine ⟨?_, ?_, ?_, ?_, ?_⟩
  · intro hits st2 h
    have hh := (percolate_query_state cfg pidx pids docs eids eidxs st hits st2 h).2
    rw [hh]
    exact List.length_take_le 20 _
  · intro l st2 h
    unfold find_sets_for_record at h
    cases hp : percolate_query cfg "rdmrecords-records-record-v4.0.0-percolators"
        none (some [record]) none none st with
    | error e =>
      simp only [hp] at h
      cases h
    | ok r =>
      simp only [hp, Except.ok.injEq] at h
      subst h
      have hh := (percolate_query_state cfg _ _ _ _ _ st l st2 hp).2
      rw [hh]
      exact List.length_take_le 20 _
  · exact rfl
  · decide
  · rfl

/-- Witness for C9 at concrete input: the hit list of a percolate over 21
matching stored queries has (at most) 20 entries. -/
theorem percolate_query_size_cap_witness :
    ((List.range 20).map (fun i => toString i)).length ≤ 20 :=
  (percolate_query_size_cap cfgEx "P" none (some ["d"]) none none "d" stMany).1
    ((List.range 20).map (fun i => toString i)) stMany (by rfl)

/-- C10: when `documents` is absent and the stored-document references are
not both supplied with equal lengths, `create_percolate_query` returns the
bare `{}` (no error is raised), and `percolate_query` submits that
unrestricted query: its hits are simply the first page of all documents of
the percolator index. -/
theorem create_percolate_query_empty_fallback (cfg : Config) (pidx : String)
    (pids : Option (List String)) (eids eidxs : Option (List String)) (st : St)
    (hinv : invalidStoredRefs eids eidxs) :
    create_percolate_query pids none eids eidxs = none ∧
    (∀ hits st2, percolate_query cfg pidx pids none eids eidxs st = .ok (hits, st2) →
      hits = ((st2.es.docs.filter (fun e => e.1 == pidx)).map (fun e => e.2.1)).take 20) := by
  have hbase : create_percolate_query pids none eids eidxs = none := by
    cases eids with
    | none => simp only [create_percolate_query]
    | some a =>
      cases eidxs with
      | none => simp only [create_percolate_query]
      | some b =>
        have hne : a.length ≠ b.length := hinv a b rfl rfl
        simp only [create_percolate_query, if_neg hne]
  refine ⟨hbase, fun hits st2 h => ?_⟩
  obtain ⟨hidx, hhits⟩ := percolate_query_state cfg pidx pids none eids eidxs st hits st2 h
  rw [hhits, hbase]
  simp [searchHits, List.filter_true]

/-- Witness for C10 at concrete input: with no documents and no stored
references the query body is `{}`, and the percolate over `stStale`
returns the whole first page of the percolator index. -/
theorem create_percolate_query_empty_fallback_witness :
    create_percolate_query none none none none = none ∧
    (["oaiset-physics"] : List String) =
      ((stStale.es.docs.filter (fun e => e.1 == pIdxEx)).map (fun e => e.2.1)).take 20 := by
  have h := create_percolate_query_empty_fallback cfgEx pIdxEx none none none stStale
    (fun a b ha hb => by cases ha)
  exact ⟨h.1, h.2 ["oaiset-physics"] stStale (by rfl)⟩

end InvenioOAIServer
